import Mathlib

/-!
A shallow embedding of the orchestration core of the meteora_dlmm
repository (src/main.go) and proofs about it: the Ledger Tailer
(readCSVHeaders / processNewLines / parseCSVRecord), the Directory
Watcher's dedup-and-dispatch branch, the Provisioning Dispatcher
(processNewJSONFile and its semaphore), the Reward Harvest pass
(executeGlobalClaimRewards / runClaimRewards), the pool-JSON field
readers, the Swap Sweep's holdings parser
(parseTokenAddressesFromOutput) and the blacklist loader (readBanList).

Go strings are modelled as Lean String except in the blacklist loader,
where rune lists (List Char) keep the character-level split/trim
reasoning tractable; Go maps populated by in-order insertion are
modelled as association lists with last-wins lookup.
-/

namespace MeteoraDlmm

/-- Last-wins association lookup: reading key from a Go map that was
populated by inserting the listed pairs in order (a later insert for the
same key overwrites an earlier one, as for map literals and for the maps
encoding/json decodes). -/
def alookup {α : Type} (pairs : List (String × α)) (key : String) : Option α :=
  (pairs.reverse.find? (fun p => p.fst == key)).map Prod.snd

/-- The struct ProfitData of main.go (lines 23-26) as parseCSVRecord
fills it: data holds the header-to-value pairs in insertion order
(values are the raw CSV field strings, no coercion). -/
structure ProfitData where
  poolAddress : String
  data : List (String × String)
  deriving DecidableEq, Repr

/-- main.go parseCSVRecord (lines 350-383). The loop
"for i, value := range record, keep i < len(csvHeaders)" pairs the
record's fields with the headers at the same index, i.e. builds
csvHeaders.zip record; then poolAddress is looked up in the map and a
record whose poolAddress is absent or empty yields none (the Go
function returns nil). -/
def parseCSVRecord (csvHeaders record : List String) : Option ProfitData :=
  if record.length < 1 then none
  else
    let data := csvHeaders.zip record
    let poolAddress :=
      match alookup data "poolAddress" with
      | some addrStr => addrStr
      | none => ""
    if poolAddress = "" then none
    else some { poolAddress := poolAddress, data := data }

/-- One State Store document as processNewLines marshals it (main.go
lines 326-331): the resolved poolAddress, the raw header list, the raw
record array, and the header-to-value map. -/
structure OutDoc where
  poolAddress : String
  headers : List String
  record : List String
  data : List (String × String)
  deriving DecidableEq, Repr

/-- The input to one iteration of the tail loop of processNewLines
(main.go lines 300-347): either reader.Read returned a non-EOF error
for this line, or it returned record; writeOk tells whether the
json.MarshalIndent / os.WriteFile calls for this record would succeed
(an environment oracle for the two error branches at lines 333-343). -/
inductive ReadItem where
  | readErr
  | readOk (record : List String) (writeOk : Bool)
  deriving DecidableEq, Repr

/-- What one iteration of the tail loop did with its line. -/
inductive ItemResult where
  | skipped
  | written (fileName : String) (doc : OutDoc)
  deriving DecidableEq, Repr

/-- The synthesized document name of main.go line 321:
row_(unix timestamp)_(line number).json. -/
def synthesizedName (nowUnix lineNum : Nat) : String :=
  "row_" ++ toString nowUnix ++ "_" ++ toString lineNum ++ ".json"

/-- One iteration of the loop at main.go lines 300-347. The value none
models the nil-pointer dereference at line 319: parseCSVRecord returned
nil (a record whose poolAddress is absent or empty) and
profitData.PoolAddress is read from the nil pointer, a runtime crash
that unwinds the process. The branch choosing synthesizedName mirrors
the dead branch at lines 320-322, which is reachable only with a
non-nil ProfitData. -/
def processOneRecord (csvHeaders : List String) (nowUnix lineNum : Nat) :
    ReadItem → Option ItemResult
  | .readErr => some .skipped
  | .readOk record writeOk =>
    if record.length < 1 then some .skipped
    else
      match parseCSVRecord csvHeaders record with
      | none => none
      | some profitData =>
        let fileName :=
          if profitData.poolAddress = "" then synthesizedName nowUnix lineNum
          else profitData.poolAddress ++ ".json"
        if writeOk then
          some (.written fileName
            ⟨profitData.poolAddress, csvHeaders, record, profitData.data⟩)
        else some .skipped

/-- main.go processNewLines (lines 277-348), the batch loop after the
already-processed lines were skipped: the per-line outcomes in order,
and true when the loop ran to EOF (false when a nil-pointer crash cut
the batch short, in which case every later line of the batch is
dropped). lineNum plays main.go's lineNum, incremented once per
iteration on every path. -/
def processNewLines (csvHeaders : List String) (nowUnix : Nat) :
    Nat → List ReadItem → List ItemResult × Bool
  | _, [] => ([], true)
  | lineNum, item :: rest =>
    match processOneRecord csvHeaders nowUnix lineNum item with
    | none => ([], false)
    | some r =>
      let out := processNewLines csvHeaders nowUnix (lineNum + 1) rest
      (r :: out.fst, out.snd)

/-- The documents a batch wrote, with their file names. -/
def writtenDocs (results : List ItemResult) : List (String × OutDoc) :=
  results.filterMap fun r =>
    match r with
    | .skipped => none
    | .written fileName doc => some (fileName, doc)

/-- A filesystem event as the watcher loop of main.go receives it from
fsnotify: the path and whether the Create bit of the operation is set. -/
structure FsEvent where
  name : String
  isCreate : Bool
  deriving DecidableEq, Repr

/-- The event filter of main.go lines 219-220: only a Create of a
".json" path under the data directory reaches the dedup check. -/
def isNewJSONCreateEvent (dataDir : String) (e : FsEvent) : Bool :=
  e.name.startsWith dataDir && e.name.endsWith ".json" && e.isCreate

/-- The JSON branch of the watcher loop (main.go lines 218-233) over a
sequence of observed events: seen is the processedFiles set and
processedFiles.LoadOrStore(event.Name, true) at line 222 - an atomic
check-and-insert on a sync.Map, hence one indivisible step here -
guards the dispatch. Returns, in order, the paths for which the
provisioning dispatch body actually runs. -/
def dispatchNewJSONEvents (dataDir : String) :
    List String → List FsEvent → List String
  | _, [] => []
  | seen, e :: rest =>
    if isNewJSONCreateEvent dataDir e then
      if seen.contains e.name then dispatchNewJSONEvents dataDir seen rest
      else e.name :: dispatchNewJSONEvents dataDir (e.name :: seen) rest
    else dispatchNewJSONEvents dataDir seen rest

/-- A JSON value as Go's encoding/json decodes it into interface
values; the numeric payload is irrelevant to every reader embedded
here (the readers only type-assert against string and object), so
numbers carry an Int. -/
inductive JsonValue where
  | null
  | bool (b : Bool)
  | num (n : Int)
  | str (s : String)
  | arr (elems : List JsonValue)
  | obj (fields : List (String × JsonValue))

/-- The Go pattern "v, ok := obj[key].(string); ok && v != empty"
shared by the pool-JSON readers: some v exactly when the field is
present, is a JSON string, and is non-empty. -/
def nonemptyStringAt (fields : List (String × JsonValue)) (key : String) :
    Option String :=
  match alookup fields key with
  | some (.str v) => if v ≠ "" then some v else none
  | _ => none

/-- The nested branch shared by the pool-JSON readers: obj["data"] must
type-assert to a JSON object, and key inside it must be a non-empty
string. -/
def dataLevelNonempty (fields : List (String × JsonValue)) (key : String) :
    Option String :=
  match alookup fields "data" with
  | some (.obj m) => nonemptyStringAt m key
  | _ => none

/-- The common body of readPositionFromPoolJSON,
readTokenContractAddressFromPoolJSON and readPoolNameFromPoolJSON
(main.go lines 558-579, 603-628, 631-654 - three copies of the same
code differing only in the key): top level first, then data.key, else
the empty string. The argument none stands for a failed os.ReadFile or
a failed json.Unmarshal; a JSON document that is not an object also
fails to unmarshal into a Go map. All of those return "" after
logging; no error propagates. -/
def readPoolJSONField (doc : Option JsonValue) (key : String) : String :=
  match doc with
  | some (.obj fields) =>
    match nonemptyStringAt fields key with
    | some v => v
    | none =>
      match dataLevelNonempty fields key with
      | some v => v
      | none => ""
  | _ => ""

/-- One entry of the State Store directory snapshot a scheduler pass
enumerates: content is the parse of the file's bytes (none: the file
cannot be read, or its bytes are not valid JSON). -/
structure DirEntry where
  name : String
  isDir : Bool
  content : Option JsonValue

/-- os.ReadFile plus json.Unmarshal of dataDir/fileName against the
snapshot; a subdirectory cannot be read as a file. -/
def storeRead (files : List DirEntry) (fileName : String) : Option JsonValue :=
  match files.find? (fun e => e.name == fileName && !e.isDir) with
  | some e => e.content
  | none => none

/-- main.go readPositionFromPoolJSON (lines 558-579). -/
def readPositionFromPoolJSON (files : List DirEntry) (poolAddress : String) : String :=
  readPoolJSONField (storeRead files (poolAddress ++ ".json")) "positionAddress"

/-- main.go readTokenContractAddressFromPoolJSON (lines 603-628). -/
def readTokenContractAddressFromPoolJSON (files : List DirEntry) (poolAddress : String) : String :=
  readPoolJSONField (storeRead files (poolAddress ++ ".json")) "ca"

/-- main.go readPoolNameFromPoolJSON (lines 631-654). -/
def readPoolNameFromPoolJSON (files : List DirEntry) (poolAddress : String) : String :=
  readPoolJSONField (storeRead files (poolAddress ++ ".json")) "poolName"

/-- json.Unmarshal at main.go line 396 into the struct ProfitData
(PoolAddress string tagged poolAddress, Data map tagged data): an
absent field or JSON null leaves the zero value; a present field of
the wrong JSON type, or a document that is not an object (and not
null), makes Unmarshal return an error and the dispatch abort. -/
def unmarshalProfitData : Option JsonValue → Option (String × List (String × JsonValue))
  | some (.obj fields) =>
    let pa : Option String :=
      match alookup fields "poolAddress" with
      | none => some ""
      | some .null => some ""
      | some (.str s) => some s
      | some _ => none
    let d : Option (List (String × JsonValue)) :=
      match alookup fields "data" with
      | none => some []
      | some .null => some []
      | some (.obj m) => some m
      | some _ => none
    match pa, d with
    | some pa, some d => some (pa, d)
    | _, _ => none
  | some .null => some ("", [])
  | _ => none

/-- The outcome of one provisioning dispatch body. -/
inductive DispatchResult where
  | failed
  | missingPool
  | invoked (args : List String) (actionOk : Bool)
  deriving DecidableEq, Repr

/-- main.go processNewJSONFile (lines 386-456), the provisioning
dispatch body: read and unmarshal the document (failure: log and
return), require a non-empty poolAddress (missing: log and return),
read ca and last_updated_first from the nested Data map only, and
build the addLiquidity.ts argument list, omitting an optional flag
whose value is empty. actionOk models the subprocess exit status: a
non-zero exit is logged and the dispatch ends either way. -/
def processNewJSONFile (content : Option JsonValue) (actionOk : Bool) : DispatchResult :=
  match unmarshalProfitData content with
  | none => .failed
  | some (poolAddress, data) =>
    if poolAddress = "" then .missingPool
    else
      let ca :=
        match alookup data "ca" with
        | some (.str s) => s
        | _ => ""
      let lastUpdatedFirst :=
        match alookup data "last_updated_first" with
        | some (.str s) => s
        | _ => ""
      let args := ["ts-node", "addLiquidity.ts", "--pool=" ++ poolAddress]
      let args := if ca ≠ "" then args ++ ["--token=" ++ ca] else args
      let args :=
        if lastUpdatedFirst ≠ "" then
          args ++ ["--last_updated_first=" ++ lastUpdatedFirst]
        else args
      .invoked args actionOk

/-- strings.TrimSuffix(name, ".json"): drop the five-character suffix
when present, else leave the name unchanged. -/
def trimJsonSuffix (s : String) : String :=
  if s.endsWith ".json" then s.dropRight 5 else s

/-- main.go runClaimRewards (lines 581-600): re-read positionAddress
from the pool's JSON; empty means return false with no subprocess,
otherwise invoke claimAllRewards.ts exactly once for the pool (the
returned list holds the pool of each claimAllRewards invocation; a
non-zero exit is logged but the function still returns true). -/
def runClaimRewards (files : List DirEntry) (poolAddress : String) :
    Bool × List String :=
  let positionAddress := readPositionFromPoolJSON files poolAddress
  if positionAddress = "" then (false, [])
  else (true, [poolAddress])

/-- The per-entry loop of executeGlobalClaimRewards (main.go lines
533-550) over a directory snapshot: skip directories and non-.json
names, skip (with no log and no error) documents whose resolved
positionAddress is empty, and otherwise run runClaimRewards. Returns
the pools for which the harvest subprocess ran, in enumeration
order. -/
def claimRewardsPass (store : List DirEntry) : List DirEntry → List String
  | [] => []
  | f :: rest =>
    if f.isDir || !(f.name.endsWith ".json") then claimRewardsPass store rest
    else
      let poolAddress := trimJsonSuffix f.name
      if readPositionFromPoolJSON store poolAddress = "" then
        claimRewardsPass store rest
      else (runClaimRewards store poolAddress).snd ++ claimRewardsPass store rest

/-- main.go executeGlobalClaimRewards (lines 521-553): one Reward
Harvest pass over the data directory. -/
def executeGlobalClaimRewards (files : List DirEntry) : List String :=
  claimRewardsPass files files

/-- Whether one directory entry is harvested by a pass over the given
snapshot (the three guards of main.go lines 534-545). -/
def harvestEligible (store : List DirEntry) (e : DirEntry) : Bool :=
  !e.isDir && e.name.endsWith ".json" &&
    readPositionFromPoolJSON store (trimJsonSuffix e.name) != ""

/-- Address extraction from one line of the holdings output, main.go
lines 979-987: the line must contain the marker, the text after the
first marker is trimmed, and the part before its first comma must be
non-empty (strings.Index returning an index greater than zero), then
trimmed again. Go checks strings.Contains first and then
len(parts) >= 2; containing the marker and splitting into at least two
parts are the same condition, checked here once. -/
def extractTokenFromLine (line : String) : Option String :=
  let parts := line.splitOn "代币:"
  if 2 ≤ parts.length then
    let tokenPart := (parts.getD 1 "").trim
    let commaParts := tokenPart.splitOn ","
    if 2 ≤ commaParts.length ∧ commaParts.getD 0 "" ≠ "" then
      some ((commaParts.getD 0 "").trim)
    else none
  else none

/-- The Solana-address length bounds of main.go line 989; Go's len on a
string counts UTF-8 bytes. -/
def tokenLengthOk (t : String) : Bool :=
  32 ≤ t.utf8ByteSize && t.utf8ByteSize ≤ 44

/-- main.go parseTokenAddressesFromOutput (lines 973-1004): the Swap
Sweep's per-item invocation list, in output order: every line's
extracted address that passes the length bounds and is not in the
blacklist (the blacklist set is modelled by list membership). -/
def parseTokenAddressesFromOutput (output : String) (banList : List String) :
    List String :=
  (output.splitOn "\n").filterMap fun line =>
    match extractTokenFromLine line with
    | none => none
    | some tokenAddress =>
      if tokenLengthOk tokenAddress then
        if banList.contains tokenAddress then none
        else some tokenAddress
      else none

/-- strings.TrimSpace over a rune list: drop leading and trailing
whitespace. -/
def trimChars (l : List Char) : List Char :=
  ((l.dropWhile Char.isWhitespace).reverse.dropWhile Char.isWhitespace).reverse

/-- strings.Split(s, ",") over a rune list: the pieces between the
ASCII commas; a string with n separators yields n+1 pieces, and the
empty string yields one empty piece. -/
def splitOnComma : List Char → List (List Char)
  | [] => [[]]
  | c :: cs =>
    if c = ',' then [] :: splitOnComma cs
    else
      match splitOnComma cs with
      | [] => [[c]]
      | piece :: pieces => (c :: piece) :: pieces

/-- main.go readBanList (lines 933-970) on the blacklist file's content
as a rune list (none: os.Stat says the file does not exist, or
os.ReadFile fails - both logged and answered with the empty list):
trim the content, answer empty for an all-whitespace file, replace
every full-width comma by an ASCII comma
(strings.ReplaceAll(line, fullwidth, ascii) acts per rune), split on
ASCII commas, trim every piece and drop the empty ones. The Go
function fills a set; membership in the returned list is the set. -/
def readBanList : Option (List Char) → List (List Char)
  | none => []
  | some content =>
    let line := trimChars content
    if line = [] then []
    else
      let replaced := line.map (fun c => if c = '，' then ',' else c)
      ((splitOnComma replaced).map trimChars).filter (fun a => a ≠ [])

/-- Splitting on both comma kinds at once, following the spec's words
that the content is split on both the ASCII comma and the full-width
comma (the claim-side description, to be compared with what readBanList
computes). -/
def splitOnEitherComma : List Char → List (List Char)
  | [] => [[]]
  | c :: cs =>
    if c = ',' ∨ c = '，' then [] :: splitOnEitherComma cs
    else
      match splitOnEitherComma cs with
      | [] => [[c]]
      | piece :: pieces => (c :: piece) :: pieces

/-- The concurrency ceiling of main.go line 183. -/
def maxConcurrent : Nat := 20

/-- The dispatcher's semaphore state: running counts the goroutines
currently holding a permit of the buffered channel sem of capacity
maxConcurrent (main.go lines 183-184), from the blocking send at line
226 to the deferred receive at line 228. -/
structure DispatcherState where
  running : Nat
  deriving DecidableEq, Repr

/-- The semaphore protocol of main.go lines 226-230: a dispatch starts
only through the blocking send on sem, which can complete exactly when
fewer than maxConcurrent permits are out, and it ends with the deferred
receive, which runs whether processNewJSONFile succeeded or failed
(actionOk is arbitrary in the finish step). -/
inductive DispatcherStep : DispatcherState → DispatcherState → Prop
  | start (s : DispatcherState) (h : s.running < maxConcurrent) :
      DispatcherStep s ⟨s.running + 1⟩
  | finish (s : DispatcherState) (actionOk : Bool) (h : 0 < s.running) :
      DispatcherStep s ⟨s.running - 1⟩

/-- The states the dispatcher can reach from process start (no permit
out) by any interleaving of starts and finishes. -/
def DispatcherReachable (s : DispatcherState) : Prop :=
  Relation.ReflTransGen DispatcherStep ⟨0⟩ s

/-! ## Helper lemmas -/

lemma string_contains_iff (l : List String) (a : String) :
    l.contains a = true ↔ a ∈ l := by
  simp [List.contains]

lemma dispatch_not_mem_of_seen (dataDir : String) (events : List FsEvent) :
    ∀ (seen : List String) (path : String), path ∈ seen →
      path ∉ dispatchNewJSONEvents dataDir seen events := by
  induction events with
  | nil =>
    intro seen path _
    simp [dispatchNewJSONEvents]
  | cons e rest ih =>
    intro seen path h
    unfold dispatchNewJSONEvents
    by_cases hf : isNewJSONCreateEvent dataDir e = true
    · rw [if_pos hf]
      by_cases hc : seen.contains e.name = true
      · rw [if_pos hc]
        exact ih seen path h
      · rw [if_neg hc]
        intro hmem
        rcases List.mem_cons.mp hmem with h1 | h2
        · exact hc ((string_contains_iff seen e.name).mpr (h1 ▸ h))
        · exact ih (e.name :: seen) path (List.mem_cons_of_mem _ h) h2
    · rw [if_neg hf]
      exact ih seen path h

lemma dispatch_count_le_one (dataDir : String) (events : List FsEvent) :
    ∀ (seen : List String) (path : String),
      (dispatchNewJSONEvents dataDir seen events).count path ≤ 1 := by
  induction events with
  | nil =>
    intro seen path
    simp [dispatchNewJSONEvents]
  | cons e rest ih =>
    intro seen path
    unfold dispatchNewJSONEvents
    by_cases hf : isNewJSONCreateEvent dataDir e = true
    · rw [if_pos hf]
      by_cases hc : seen.contains e.name = true
      · rw [if_pos hc]
        exact ih seen path
      · rw [if_neg hc, List.count_cons]
        by_cases hp : e.name = path
        · subst hp
          have hz : (dispatchNewJSONEvents dataDir (e.name :: seen) rest).count e.name = 0 :=
            List.count_eq_zero.mpr
              (dispatch_not_mem_of_seen dataDir rest (e.name :: seen) e.name
                (List.mem_cons_self e.name seen))
          simp [hz]
        · have hb : (e.name == path) = false := by
            simpa using hp
          simp only [hb, if_false]
          simpa using ih (e.name :: seen) path
    · rw [if_neg hf]
      exact ih seen path

lemma readPoolJSONField_top (fields : List (String × JsonValue)) (key v : String)
    (h : alookup fields key = some (.str v)) (hv : v ≠ "") :
    readPoolJSONField (some (.obj fields)) key = v := by
  simp [readPoolJSONField, nonemptyStringAt, h, hv]

lemma readPoolJSONField_fallback (fields : List (String × JsonValue)) (key : String)
    (h : nonemptyStringAt fields key = none) :
    readPoolJSONField (some (.obj fields)) key =
      (dataLevelNonempty fields key).getD "" := by
  simp only [readPoolJSONField, h]
  cases hd : dataLevelNonempty fields key <;> simp

lemma find?_filter_of_imp {α : Type} (pr pf : α → Bool) (l : List α)
    (h : ∀ x, pr x = true → pf x = true) :
    (l.filter pf).find? pr = l.find? pr := by
  induction l with
  | nil => rfl
  | cons a l ih =>
    by_cases hpf : pf a = true
    · rw [List.filter_cons_of_pos hpf]
      by_cases hpr : pr a = true
      · rw [List.find?_cons_of_pos _ hpr, List.find?_cons_of_pos _ hpr]
      · rw [List.find?_cons_of_neg _ (by simpa using hpr),
           List.find?_cons_of_neg _ (by simpa using hpr), ih]
    · rw [List.filter_cons_of_neg (by simpa using hpf)]
      have hpr : pr a = false := by
        by_contra hcon
        exact hpf (h a (by simpa using hcon))
      rw [List.find?_cons_of_neg _ (by simp [hpr]), ih]

lemma alookup_filter_self {α : Type} (fields : List (String × α)) (key : String) :
    alookup (fields.filter (fun p => p.fst ≠ key)) key = none := by
  unfold alookup
  rw [Option.map_eq_none']
  rw [List.find?_eq_none]
  intro x hx
  have hmem := List.mem_filter.mp (List.mem_reverse.mp hx)
  simp only [decide_not] at hmem
  simp only [beq_iff_eq]
  intro hk
  rcases hmem with ⟨_, hne⟩
  simp [hk] at hne

lemma alookup_filter_other {α : Type} (fields : List (String × α)) (key k2 : String)
    (hne : key ≠ k2) :
    alookup (fields.filter (fun p => p.fst ≠ key)) k2 = alookup fields k2 := by
  unfold alookup
  rw [← List.filter_reverse, find?_filter_of_imp]
  intro x hx
  simp only [beq_iff_eq] at hx
  simp [hx]
  exact fun hk => hne hk.symm

lemma claimRewardsPass_eq (store : List DirEntry) :
    ∀ l : List DirEntry,
      claimRewardsPass store l =
        (l.filter (harvestEligible store)).map (fun e => trimJsonSuffix e.name) := by
  intro l
  induction l with
  | nil => rfl
  | cons f rest ih =>
    unfold claimRewardsPass
    by_cases hskip : (f.isDir || !(f.name.endsWith ".json")) = true
    · rw [if_pos hskip]
      have helig : harvestEligible store f = false := by
        unfold harvestEligible
        rcases Bool.or_eq_true_iff.mp hskip with hd | he
        · simp [hd]
        · have he2 : f.name.endsWith ".json" = false := by simpa using he
          simp [he2]
      rw [List.filter_cons_of_neg (by simp [helig]), ih]
    · rw [if_neg hskip]
      have hnd : f.isDir = false ∧ f.name.endsWith ".json" = true := by
        have h2 : (f.isDir || !f.name.endsWith ".json") = false := by
          simpa using hskip
        have h3 := Bool.or_eq_false_iff.mp h2
        exact ⟨h3.1, by simpa using h3.2⟩
      by_cases hp : readPositionFromPoolJSON store (trimJsonSuffix f.name) = ""
      · rw [if_pos hp]
        have helig : harvestEligible store f = false := by
          simp [harvestEligible, hp, hnd.1, hnd.2]
        rw [List.filter_cons_of_neg (by simp [helig]), ih]
      · rw [if_neg hp]
        have helig : harvestEligible store f = true := by
          simp [harvestEligible, hnd.1, hnd.2]
          simpa using hp
        rw [List.filter_cons_of_pos helig, List.map_cons, ← ih]
        unfold runClaimRewards
        rw [if_neg hp]
        rfl

lemma swapLine_filter_iff (banList : List String) (line t : String) :
    ((match extractTokenFromLine line with
      | none => none
      | some tokenAddress =>
        if tokenLengthOk tokenAddress then
          if banList.contains tokenAddress then none
          else some tokenAddress
        else none) = some t)
      ↔ (extractTokenFromLine line = some t ∧ tokenLengthOk t = true ∧
          t ∉ banList) := by
  cases h : extractTokenFromLine line with
  | none => simp
  | some tok =>
    by_cases hl : tokenLengthOk tok = true
    · by_cases hb : banList.contains tok = true
      · simp only [hl, hb, if_true]
        constructor
        · intro hfalse
          exact absurd hfalse (by simp)
        · rintro ⟨ht, hlen, hnb⟩
          injection ht with ht2
          subst ht2
          exact absurd ((string_contains_iff banList tok).mp hb) hnb
      · simp only [hl, if_true, hb, if_false]
        constructor
        · intro ht
          injection ht with ht2
          subst ht2
          refine ⟨rfl, hl, ?_⟩
          intro hmem
          exact hb ((string_contains_iff banList tok).mpr hmem)
        · rintro ⟨ht, _, _⟩
          exact ht
    · simp only [if_neg hl]
      constructor
      · intro hfalse
        exact absurd hfalse (by simp)
      · rintro ⟨ht, hlen, _⟩
        injection ht with ht2
        subst ht2
        exact absurd hlen hl

lemma dropWhile_self_idem {α : Type} (p : α → Bool) (l : List α) :
    (l.dropWhile p).dropWhile p = l.dropWhile p := by
  induction l with
  | nil => rfl
  | cons a l ih =>
    rw [List.dropWhile_cons]
    by_cases hp : p a = true
    · rw [if_pos hp]
      exact ih
    · rw [if_neg hp, List.dropWhile_cons, if_neg hp]

lemma dropWhile_eq_self_of_prefix {α : Type} (p : α → Bool) {t m : List α}
    (hm : m.dropWhile p = m) (hpre : t <+: m) : t.dropWhile p = t := by
  cases t with
  | nil => rfl
  | cons a t2 =>
    obtain ⟨r, hr⟩ := hpre
    have hpa : p a = false := by
      by_contra hcon
      have hpa2 : p a = true := by simpa using hcon
      subst hr
      rw [List.cons_append, List.dropWhile_cons, if_pos hpa2] at hm
      have := congrArg List.length hm
      simp at this
      have hle : (List.dropWhile p (t2 ++ r)).length ≤ (t2 ++ r).length :=
        (List.dropWhile_suffix p).length_le
      simp [List.length_append] at hle
      omega
    rw [List.dropWhile_cons, if_neg (by simp [hpa])]

lemma trimChars_idem (l : List Char) : trimChars (trimChars l) = trimChars l := by
  unfold trimChars
  set w := Char.isWhitespace with hw
  set m := l.dropWhile w with hm
  have h1 : m.dropWhile w = m := by
    rw [hm]
    exact dropWhile_self_idem w l
  set t := (m.reverse.dropWhile w).reverse with ht
  have hpre : t <+: m := by
    rw [ht]
    have hsuf : m.reverse.dropWhile w <:+ m.reverse := List.dropWhile_suffix w
    have := List.reverse_prefix.mpr hsuf
    simpa using this
  have h2 : t.dropWhile w = t := dropWhile_eq_self_of_prefix w h1 hpre
  rw [h2, ht]
  rw [List.reverse_reverse]
  rw [dropWhile_self_idem]

lemma splitOnComma_map_fw (l : List Char) :
    splitOnComma (l.map (fun c => if c = '，' then ',' else c)) =
      splitOnEitherComma l := by
  induction l with
  | nil => rfl
  | cons c cs ih =>
    rw [List.map_cons]
    by_cases h1 : c = ','
    · subst h1
      rw [if_neg (by decide)]
      unfold splitOnComma splitOnEitherComma
      rw [if_pos rfl, if_pos (Or.inl rfl), ih]
    · by_cases h2 : c = '，'
      · subst h2
        rw [if_pos rfl]
        unfold splitOnComma splitOnEitherComma
        rw [if_pos rfl, if_pos (Or.inr rfl), ih]
      · rw [if_neg h2]
        unfold splitOnComma splitOnEitherComma
        rw [if_neg h1, if_neg (by simp [h1, h2]), ih]

/-! ## Claims -/

/-- C1 (code bug): the spec says a newly appended ledger row whose
poolAddress is absent or empty is still persisted as one State Store
document under the synthesized name and the tailer does not fail; the
code instead has parseCSVRecord return nil for such a row, and
processNewLines dereferences that nil pointer (profitData.PoolAddress,
main.go line 319) before its synthesized-name branch can run, so the
process crashes, nothing is persisted, and the row is lost. The
evaluation below shows exactly that: the parse yields none and the
batch ends with no written document and the crash flag. -/
theorem emptyPoolAddressRowCrashesTailer :
    parseCSVRecord ["poolAddress", "ca", "last_updated_first"]
        ["", "TOK987", "2025-09-11 05:02:00"] = none ∧
    processNewLines ["poolAddress", "ca", "last_updated_first"] 1757566920 2
        [.readOk ["", "TOK987", "2025-09-11 05:02:00"] true] = ([], false) := by
  constructor <;> rfl

/-- C2: over any sequence of filesystem events observed by the watcher
loop, the provisioning dispatch body runs at most once per path in one
process run (the processedFiles set starts empty at process start),
even when the same path is reported many times; LoadOrStore's atomic
check-and-insert is the single dedup step of dispatchNewJSONEvents. -/
theorem provisioningDispatchAtMostOncePerPath :
    ∀ (dataDir : String) (events : List FsEvent) (path : String),
      (dispatchNewJSONEvents dataDir [] events).count path ≤ 1 :=
  fun dataDir events path => dispatch_count_le_one dataDir events [] path

/-- C3: the ledger scenario - header poolAddress,ca,last_updated_first
and new row ABC123,TOK987,2025-09-11 05:02:00 - produces exactly one
document, named ABC123.json, whose data map binds ca and
last_updated_first to the row's values and whose poolAddress is ABC123;
and in general the header-to-value map is the positional zip of headers
against fields (its length is the minimum of the two lengths, so extra
headers map to nothing and extra fields enter no data pair), while the
written document always retains the full raw record array. -/
theorem ledgerRowScenarioPositionalZip :
    (∀ nowUnix lineNum : Nat,
      processNewLines ["poolAddress", "ca", "last_updated_first"] nowUnix lineNum
          [.readOk ["ABC123", "TOK987", "2025-09-11 05:02:00"] true] =
        ([.written "ABC123.json"
            { poolAddress := "ABC123",
              headers := ["poolAddress", "ca", "last_updated_first"],
              record := ["ABC123", "TOK987", "2025-09-11 05:02:00"],
              data := [("poolAddress", "ABC123"), ("ca", "TOK987"),
                       ("last_updated_first", "2025-09-11 05:02:00")] }], true)) ∧
    alookup [("poolAddress", "ABC123"), ("ca", "TOK987"),
             ("last_updated_first", "2025-09-11 05:02:00")] "ca" = some "TOK987" ∧
    alookup [("poolAddress", "ABC123"), ("ca", "TOK987"),
             ("last_updated_first", "2025-09-11 05:02:00")] "last_updated_first" =
      some "2025-09-11 05:02:00" ∧
    (∀ (csvHeaders record : List String) (pd : ProfitData),
      parseCSVRecord csvHeaders record = some pd → pd.data = csvHeaders.zip record) ∧
    (∀ csvHeaders record : List String,
      (csvHeaders.zip record).length = min csvHeaders.length record.length) ∧
    (∀ (csvHeaders record : List String) (i : Nat) (hd vv : String),
      (csvHeaders.zip record)[i]? = some (hd, vv) ↔
        csvHeaders[i]? = some hd ∧ record[i]? = some vv) ∧
    (∀ (csvHeaders record : List String) (nowUnix lineNum : Nat) (writeOk : Bool)
        (fileName : String) (doc : OutDoc),
      processOneRecord csvHeaders nowUnix lineNum (.readOk record writeOk) =
          some (.written fileName doc) →
        doc.record = record ∧ doc.headers = csvHeaders) := by
  refine ⟨fun nowUnix lineNum => rfl, rfl, rfl, ?_, ?_, ?_, ?_⟩
  · intro csvHeaders record pd h
    simp only [parseCSVRecord] at h
    split at h
    · exact absurd h (by simp)
    · split at h
      · exact absurd h (by simp)
      · cases h
        rfl
  · intro csvHeaders record
    simp
  · intro csvHeaders record i hd vv
    simpa using @List.getElem?_zip_eq_some String String csvHeaders record (hd, vv) i
  · intro csvHeaders record nowUnix lineNum writeOk fileName doc h
    simp only [processOneRecord] at h
    split at h
    · exact absurd h (by simp)
    · split at h
      · exact absurd h (by simp)
      · split at h
        · cases h
          exact ⟨rfl, rfl⟩
        · exact absurd h (by simp)

/-- C7 (code bug): the spec says a record that fails to parse or fails
to be written is logged and skipped and the tailer continues, and that
a single bad record never aborts the scan or suppresses later records.
The code does continue past a CSV reader error and past a failed
marshal/write (the two .skipped results below), but a record that
parseCSVRecord rejects - a row whose poolAddress is absent or empty -
crashes the batch through the nil-pointer dereference of main.go line
319, so the following well-formed row B1,T3 is never processed: the
batch below ends after two results with the crash flag instead of
producing four results. -/
theorem tailBatchAbortedByBadRecord :
    processNewLines ["poolAddress", "ca"] 1757566920 2
        [.readErr, .readOk ["A1", "T1"] false, .readOk ["", "T2"] true,
         .readOk ["B1", "T3"] true] =
      ([.skipped, .skipped], false) := by
  rfl

/-- C4 counterexample: the claim says every reader in the core checks
both the top level and the nested data object for positionAddress, ca
and poolName, top level winning. On the document below, which carries
ca only at the top level, the dedicated reader resolves TOPCA, but the
provisioning dispatch body - itself a reader of ca that the claim's
sources cite - never looks at the top level: it unmarshals only the
poolAddress and data fields and so emits no token flag at all. -/
theorem dispatcherIgnoresTopLevelCa :
    readTokenContractAddressFromPoolJSON
        [⟨"P.json", false,
          some (.obj [("poolAddress", .str "P"), ("ca", .str "TOPCA"),
                      ("data", .obj [])])⟩] "P" = "TOPCA" ∧
    processNewJSONFile
        (some (.obj [("poolAddress", .str "P"), ("ca", .str "TOPCA"),
                     ("data", .obj [])])) true =
      .invoked ["ts-node", "addLiquidity.ts", "--pool=P"] true := by
  constructor <;> rfl

/-- C4 as amended: the three dedicated field readers
(readPositionFromPoolJSON, readTokenContractAddressFromPoolJSON,
readPoolNameFromPoolJSON) each check both levels with the top-level
value taking precedence - a non-empty top-level string is returned
whatever the data object holds, and otherwise the reader falls back to
the data object; the provisioning dispatch body, by contrast, depends
only on the document's top-level poolAddress and data fields, so it
reads ca (and last_updated_first) from the nested data object only. -/
theorem fieldReadersTopLevelPrecedence :
    (∀ (files : List DirEntry) (poolAddress : String)
        (fields : List (String × JsonValue)) (v : String),
      storeRead files (poolAddress ++ ".json") = some (.obj fields) →
      alookup fields "positionAddress" = some (.str v) → v ≠ "" →
      readPositionFromPoolJSON files poolAddress = v) ∧
    (∀ (files : List DirEntry) (poolAddress : String)
        (fields : List (String × JsonValue)) (v : String),
      storeRead files (poolAddress ++ ".json") = some (.obj fields) →
      alookup fields "ca" = some (.str v) → v ≠ "" →
      readTokenContractAddressFromPoolJSON files poolAddress = v) ∧
    (∀ (files : List DirEntry) (poolAddress : String)
        (fields : List (String × JsonValue)) (v : String),
      storeRead files (poolAddress ++ ".json") = some (.obj fields) →
      alookup fields "poolName" = some (.str v) → v ≠ "" →
      readPoolNameFromPoolJSON files poolAddress = v) ∧
    (∀ (files : List DirEntry) (poolAddress : String)
        (fields : List (String × JsonValue)),
      storeRead files (poolAddress ++ ".json") = some (.obj fields) →
      nonemptyStringAt fields "positionAddress" = none →
      readPositionFromPoolJSON files poolAddress =
        (dataLevelNonempty fields "positionAddress").getD "") ∧
    (∀ (files : List DirEntry) (poolAddress : String)
        (fields : List (String × JsonValue)),
      storeRead files (poolAddress ++ ".json") = some (.obj fields) →
      nonemptyStringAt fields "ca" = none →
      readTokenContractAddressFromPoolJSON files poolAddress =
        (dataLevelNonempty fields "ca").getD "") ∧
    (∀ (files : List DirEntry) (poolAddress : String)
        (fields : List (String × JsonValue)),
      storeRead files (poolAddress ++ ".json") = some (.obj fields) →
      nonemptyStringAt fields "poolName" = none →
      readPoolNameFromPoolJSON files poolAddress =
        (dataLevelNonempty fields "poolName").getD "") ∧
    (∀ (fields1 fields2 : List (String × JsonValue)) (actionOk : Bool),
      alookup fields1 "poolAddress" = alookup fields2 "poolAddress" →
      alookup fields1 "data" = alookup fields2 "data" →
      processNewJSONFile (some (.obj fields1)) actionOk =
        processNewJSONFile (some (.obj fields2)) actionOk) := by
  refine ⟨?_, ?_, ?_, ?_, ?_, ?_, ?_⟩
  · intro files poolAddress fields v hs ha hv
    rw [readPositionFromPoolJSON, hs]
    exact readPoolJSONField_top fields _ v ha hv
  · intro files poolAddress fields v hs ha hv
    rw [readTokenContractAddressFromPoolJSON, hs]
    exact readPoolJSONField_top fields _ v ha hv
  · intro files poolAddress fields v hs ha hv
    rw [readPoolNameFromPoolJSON, hs]
    exact readPoolJSONField_top fields _ v ha hv
  · intro files poolAddress fields hs hn
    rw [readPositionFromPoolJSON, hs]
    exact readPoolJSONField_fallback fields _ hn
  · intro files poolAddress fields hs hn
    rw [readTokenContractAddressFromPoolJSON, hs]
    exact readPoolJSONField_fallback fields _ hn
  · intro files poolAddress fields hs hn
    rw [readPoolNameFromPoolJSON, hs]
    exact readPoolJSONField_fallback fields _ hn
  · intro fields1 fields2 actionOk h1 h2
    simp only [processNewJSONFile, unmarshalProfitData, h1, h2]

/-- C10: in the pool-JSON readers, a positionAddress, ca or poolName
entry whose value is not a JSON string or is the empty string is
treated exactly as if the field were absent - erasing the key from the
top level does not change the result, the reader falls through to the
nested data object (the fallback equation of
readPoolJSONField_fallback, instantiated through the erasure), a
non-usable entry inside the data object likewise yields nothing, and
when neither level yields a non-empty string the reader returns the
empty string, never an error; the last conjunct ties the three named
readers to the shared body the other conjuncts speak about. -/
theorem readersTreatNonStringOrEmptyAsAbsent :
    (∀ (fields : List (String × JsonValue)) (key : String),
      key = "positionAddress" ∨ key = "ca" ∨ key = "poolName" →
      nonemptyStringAt fields key = none →
      readPoolJSONField (some (.obj fields)) key =
        readPoolJSONField (some (.obj (fields.filter (fun p => p.fst ≠ key)))) key) ∧
    (∀ (fields : List (String × JsonValue)) (key : String),
      nonemptyStringAt fields key = none →
      dataLevelNonempty fields key = none →
      readPoolJSONField (some (.obj fields)) key = "") ∧
    (∀ (m : List (String × JsonValue)) (key : String),
      nonemptyStringAt m key = none →
      ∀ fields : List (String × JsonValue), alookup fields "data" = some (.obj m) →
        dataLevelNonempty fields key = none) ∧
    (∀ (files : List DirEntry) (poolAddress : String),
      readPositionFromPoolJSON files poolAddress =
        readPoolJSONField (storeRead files (poolAddress ++ ".json")) "positionAddress" ∧
      readTokenContractAddressFromPoolJSON files poolAddress =
        readPoolJSONField (storeRead files (poolAddress ++ ".json")) "ca" ∧
      readPoolNameFromPoolJSON files poolAddress =
        readPoolJSONField (storeRead files (poolAddress ++ ".json")) "poolName") := by
  refine ⟨?_, ?_, ?_, fun files poolAddress => ⟨rfl, rfl, rfl⟩⟩
  · intro fields key hkey h
    have hne : key ≠ "data" := by
      rcases hkey with h1 | h1 | h1 <;> subst h1 <;> decide
    have h2 : nonemptyStringAt (fields.filter (fun p => p.fst ≠ key)) key = none := by
      unfold nonemptyStringAt
      rw [alookup_filter_self]
    rw [readPoolJSONField_fallback fields key h, readPoolJSONField_fallback _ key h2]
    have hdata : dataLevelNonempty (fields.filter (fun p => p.fst ≠ key)) key =
        dataLevelNonempty fields key := by
      unfold dataLevelNonempty
      rw [alookup_filter_other fields key "data" hne]
    rw [hdata]
  · intro fields key h1 h2
    rw [readPoolJSONField_fallback fields key h1, h2]
    rfl
  · intro m key hm fields hfields
    unfold dataLevelNonempty
    rw [hfields]
    exact hm

/-- C6: one Reward Harvest pass invokes the harvest subprocess exactly
for the .json documents of the snapshot whose resolved positionAddress
is non-empty - the invocation list is literally the filtered map over
the directory listing, so every eligible document contributes exactly
one invocation and every other entry contributes none; a document with
an empty resolved positionAddress makes runClaimRewards return false
with no invocation (a skip, not an error), and a document with a
non-empty one makes it invoke claimAllRewards exactly once. -/
theorem harvestPassInvokesExactlyProvisioned :
    (∀ files : List DirEntry,
      executeGlobalClaimRewards files =
        (files.filter (harvestEligible files)).map (fun e => trimJsonSuffix e.name)) ∧
    (∀ (store : List DirEntry) (poolAddress : String),
      readPositionFromPoolJSON store poolAddress = "" →
        runClaimRewards store poolAddress = (false, [])) ∧
    (∀ (store : List DirEntry) (poolAddress : String),
      readPositionFromPoolJSON store poolAddress ≠ "" →
        runClaimRewards store poolAddress = (true, [poolAddress])) := by
  refine ⟨fun files => claimRewardsPass_eq files files, ?_, ?_⟩
  · intro store poolAddress h
    unfold runClaimRewards
    rw [if_pos h]
  · intro store poolAddress h
    unfold runClaimRewards
    rw [if_neg h]

/-- C5: the Swap Sweep's per-item invocation list contains a token
address exactly when some line of the holdings output yields it through
the pattern extraction, it passes the length bounds, and it is not in
the blacklist; in particular a blacklisted identifier never appears in
the invocation list, even when the holdings output reports it. -/
theorem swapSweepExcludesBlacklist :
    ∀ (output : String) (banList : List String) (t : String),
      (t ∈ parseTokenAddressesFromOutput output banList ↔
        (∃ line ∈ output.splitOn "\n", extractTokenFromLine line = some t) ∧
          tokenLengthOk t = true ∧ t ∉ banList) ∧
      (t ∈ banList → t ∉ parseTokenAddressesFromOutput output banList) := by
  intro output banList t
  have hmem : t ∈ parseTokenAddressesFromOutput output banList ↔
      (∃ line ∈ output.splitOn "\n", extractTokenFromLine line = some t) ∧
        tokenLengthOk t = true ∧ t ∉ banList := by
    unfold parseTokenAddressesFromOutput
    rw [List.mem_filterMap]
    constructor
    · rintro ⟨line, hline, hf⟩
      rcases (swapLine_filter_iff banList line t).mp hf with ⟨hx, hlen, hnb⟩
      exact ⟨⟨line, hline, hx⟩, hlen, hnb⟩
    · rintro ⟨⟨line, hline, hx⟩, hlen, hnb⟩
      exact ⟨line, hline, (swapLine_filter_iff banList line t).mpr ⟨hx, hlen, hnb⟩⟩
  refine ⟨hmem, fun hban hmem2 => ?_⟩
  exact (hmem.mp hmem2).2.2 hban

/-- C9: every state the dispatcher's semaphore protocol can reach from
process start keeps the number of concurrently executing provisioning
dispatches at or below the fixed pool size of 20 - a dispatch starts
only by acquiring a permit, possible only below the ceiling - and a
permit holder can always release its permit whatever the invoked
action's outcome (the finish step exists for an arbitrary actionOk,
modelling the deferred release that runs on failure too). -/
theorem dispatcherConcurrencyCeiling :
    (∀ s : DispatcherState, DispatcherReachable s → s.running ≤ maxConcurrent) ∧
    (∀ (s : DispatcherState) (actionOk : Bool), 0 < s.running →
      DispatcherStep s ⟨s.running - 1⟩) := by
  constructor
  · intro s h
    induction h with
    | refl => simp [maxConcurrent]
    | tail _ step ih =>
      cases step with
      | start hlt => simpa using hlt
      | finish actionOk hpos => simp only []; omega
  · intro s actionOk h
    exact DispatcherStep.finish s actionOk h

/-- C9 witness: the state with one running dispatch is reachable (one
start step from process start) and the ceiling theorem applies to it. -/
theorem dispatcherConcurrencyCeilingWitness :
    (⟨1⟩ : DispatcherState).running ≤ maxConcurrent :=
  dispatcherConcurrencyCeiling.1 ⟨1⟩
    (Relation.ReflTransGen.single (DispatcherStep.start ⟨0⟩ (by decide)))

/-- C8: an absent blacklist file loads as the empty blacklist (no
failure - readBanList is total and answers the empty list); a present
file is trimmed and split on both the ASCII comma and the full-width
comma - what readBanList computes by first replacing full-width commas
coincides with splitting on either comma kind directly - with every
entry trimmed of surrounding whitespace and empty entries dropped, so
every loaded entry is non-empty and carries no surrounding
whitespace. -/
theorem banListBothCommasTrimmedNonempty :
    readBanList none = [] ∧
    (∀ content : List Char,
      readBanList (some content) =
        ((splitOnEitherComma (trimChars content)).map trimChars).filter
          (fun a => a ≠ [])) ∧
    (∀ (content : List Char) (a : List Char),
      a ∈ readBanList (some content) → a ≠ [] ∧ trimChars a = a) := by
  have hsome : ∀ content : List Char,
      readBanList (some content) =
        ((splitOnEitherComma (trimChars content)).map trimChars).filter
          (fun a => a ≠ []) := by
    intro content
    simp only [readBanList]
    by_cases h : trimChars content = []
    · rw [if_pos h, h]
      rfl
    · rw [if_neg h, splitOnComma_map_fw]
  refine ⟨rfl, hsome, ?_⟩
  intro content a ha
  rw [hsome content] at ha
  have hmem := List.mem_filter.mp ha
  have hne : a ≠ [] := by simpa using hmem.2
  refine ⟨hne, ?_⟩
  rcases List.mem_map.mp hmem.1 with ⟨piece, _, hpiece⟩
  rw [← hpiece]
  exact trimChars_idem piece

end MeteoraDlmm
